import Mathlib

/-!
Shallow embedding of the game-session core of `stinkyfingers/differencebetween`
(Go package `game`, file `status.go`).

Modelling conventions:
* Go `Card` (a string) becomes `Card := String`; the Go zero value is `""`.
* Go slices become `List`; slice indexing that Go would bounds-check is
  modelled with `List.getD`/`List.set`, and any Go panic (out-of-range index)
  makes the embedded operation return `none`.
* Go `map[string]Card` values (`Round.Plays`, `Round.Votes`) become
  association lists mutated only through an overwrite-or-append `mapInsert`,
  so `List.length` agrees with Go's `len` on the map.
* `math/rand` is modelled by an explicit stream `σ : Nat → Nat` together with
  a position `t`; each Go `rand.Intn n` call reads `σ t % n` and advances `t`.
  (`rand.Seed` has no observable effect in this model.)
* The unbounded rejection-sampling loop of `createRounds` takes explicit fuel;
  running out of fuel (`none`) models non-termination of the Go loop.
* The S3/CSV transport of `getCardsCsv` is external; the embedded
  `getCardsRows` consumes the already-parsed CSV rows and performs the
  row-shape check, the rating filter and the `TrimSpace` of the Go loop body.
-/

abbrev Card := String

structure Player where
  name : String
  punchlines : List Card
deriving DecidableEq

instance : Inhabited Player := ⟨⟨"", []⟩⟩

structure Round where
  setup : Card × Card
  plays : List (String × Card)
  votes : List (String × Card)
deriving DecidableEq

instance : Inhabited Round := ⟨⟨("", ""), [], []⟩⟩

structure Game where
  id : Nat
  players : List Player
  punchlines : List Card
  rounds : List Round
  roundsRemaining : Nat
  currentAction : String
deriving DecidableEq

inductive GameErr where
  | tooFewSetups
  | tooFewPunchlines
  | noGamesAvailable
  | malformedCSV
  | duplicatePlayerName
deriving DecidableEq

def handSize : Nat := 6

def PLAY : String := "play"

def VOTE : String := "vote"

/-- Overwrite-or-append insertion into a `map[string]Card` value. -/
def mapInsert (k : String) (v : Card) : List (String × Card) → List (String × Card)
  | [] => [(k, v)]
  | (k', v') :: rest => if k' = k then (k, v) :: rest else (k', v') :: mapInsert k v rest

/-- The inner loop of `dealPunchlines`: draw `n` cards from `pool` into `hand`
by repeated `index := rand.Intn(len(pool)); swap-remove pool[index]`. -/
def drawCards (σ : Nat → Nat) : Nat → Nat → List Card → List Card → List Card × List Card × Nat
  | t, 0, hand, pool => (hand, pool, t)
  | t, n + 1, hand, pool =>
    let index := σ t % pool.length
    let card := pool.getD index ""
    let pool' := (pool.set index (pool.getLastD "")).dropLast
    drawCards σ (t + 1) n (hand ++ [card]) pool'

/-- The player loop of `dealPunchlines`: top each player's hand up to
`handSize`, aborting with `ErrTooFewPunchlines` (and keeping all mutations
made so far, as the Go code mutates in place) when a player's need exceeds
the remaining pool. -/
def dealLoop (σ : Nat → Nat) : Nat → List Card → List Player → List Player × List Card × Nat × Option GameErr
  | t, pool, [] => ([], pool, t, none)
  | t, pool, p :: rest =>
    let needed := handSize - p.punchlines.length
    if needed > pool.length then
      (p :: rest, pool, t, some .tooFewPunchlines)
    else
      match drawCards σ t needed p.punchlines pool with
      | (hand', pool', t') =>
        match dealLoop σ t' pool' rest with
        | (rest', pool'', t'', e) => ({ p with punchlines := hand' } :: rest', pool'', t'', e)

/-- Embeds `func (g *Game) dealPunchlines() error`. -/
def dealPunchlines (σ : Nat → Nat) (t : Nat) (g : Game) : Game × Nat × Option GameErr :=
  match dealLoop σ t g.punchlines g.players with
  | (players', pool', t', e) => ({ g with players := players', punchlines := pool' }, t', e)

/-- One player's pass of the `// rm used punchline` loop in `Play`.
`backing` is the shared backing array (its length never changes), `curLen`
the current slice length, `j` the range index and `steps` the remaining
iterations (the Go `range` iterates over the original length).  A write at
`j ≥ curLen` is a Go slice-bounds panic, modelled as `none`. -/
def rmScan (card : Card) : Nat → Nat → List Card → Nat → Option (List Card × Nat)
  | _, 0, backing, curLen => some (backing, curLen)
  | j, steps + 1, backing, curLen =>
    if backing.getD j "" = card then
      if j < curLen then
        rmScan card (j + 1) steps (backing.set j (backing.getD (curLen - 1) "")) (curLen - 1)
      else none
    else rmScan card (j + 1) steps backing curLen

/-- The effect of the removal loop on a single hand. -/
def rmFromHand (card : Card) (hand : List Card) : Option (List Card) :=
  match rmScan card 0 hand.length hand hand.length with
  | none => none
  | some (backing, curLen) => some (backing.take curLen)

/-- The whole `// rm used punchline` loop of `Play`: it scans every player
(the submitting player's name is not consulted). -/
def removeUsedPunchline (card : Card) : List Player → Option (List Player)
  | [] => some []
  | p :: rest =>
    match rmFromHand card p.punchlines with
    | none => none
    | some hand' =>
      match removeUsedPunchline card rest with
      | none => none
      | some rest' => some ({ p with punchlines := hand' } :: rest')

/-- The local `round` of `Play` after `round.Plays[playerName] = card` (the Go
code names it `round`; the nil-map `make` is invisible here because the
embedded maps are always concrete lists). -/
def playInsert (g : Game) (playerName : String) (card : Card) : Round :=
  { g.rounds.getD (g.roundsRemaining - 1) default with
    plays := mapInsert playerName card (g.rounds.getD (g.roundsRemaining - 1) default).plays }

/-- The local `round` of `Vote` after `round.Votes[playerName] = card`. -/
def voteInsert (g : Game) (playerName : String) (card : Card) : Round :=
  { g.rounds.getD (g.roundsRemaining - 1) default with
    votes := mapInsert playerName card (g.rounds.getD (g.roundsRemaining - 1) default).votes }

/-- Embeds `g.Rounds[g.RoundsRemaining-1] = round`: write the updated round back. -/
def withRound (g : Game) (r : Round) : Game :=
  { g with rounds := g.rounds.set (g.roundsRemaining - 1) r }

/-- The session state reached by `Play` after the write-back and the
`len(round.Plays) == len(g.Players)` phase check, just before the removal
loop and the refill. -/
def playMid (g : Game) (playerName : String) (card : Card) : Game :=
  if (playInsert g playerName card).plays.length = g.players.length then
    { withRound g (playInsert g playerName card) with currentAction := VOTE }
  else withRound g (playInsert g playerName card)

/-- The state `Vote` passes to the refill in its round-complete branch:
vote recorded, `RoundsRemaining` decremented. -/
def voteMid (g : Game) (playerName : String) (card : Card) : Game :=
  { withRound g (voteInsert g playerName card) with roundsRemaining := g.roundsRemaining - 1 }

/-- Embeds `func (g *Game) Play(playerName string, card Card)`.  The Go function
returns nothing; its only failure mode is an index panic (`none` here).
The error of the trailing `dealPunchlines` call is discarded. -/
def Game.Play (σ : Nat → Nat) (t : Nat) (g : Game) (playerName : String) (card : Card) : Option (Game × Nat) :=
  if 1 ≤ g.roundsRemaining ∧ g.roundsRemaining - 1 < g.rounds.length then
    match removeUsedPunchline card (playMid g playerName card).players with
    | none => none
    | some players' =>
      match dealPunchlines σ t { playMid g playerName card with players := players' } with
      | (g3, t', _) => some (g3, t')
  else none

/-- Embeds `func (g *Game) Vote(playerName string, card Card)`. -/
def Game.Vote (σ : Nat → Nat) (t : Nat) (g : Game) (playerName : String) (card : Card) : Option (Game × Nat) :=
  if 1 ≤ g.roundsRemaining ∧ g.roundsRemaining - 1 < g.rounds.length then
    if (voteInsert g playerName card).votes.length = g.players.length then
      match dealPunchlines σ t (voteMid g playerName card) with
      | (g3, t', _) => some ({ g3 with currentAction := PLAY }, t')
    else some (withRound g (voteInsert g playerName card), t)
  else none

/-- Embeds `func (g *Game) AddPlayer(player Player) error`. -/
def Game.AddPlayer (σ : Nat → Nat) (t : Nat) (g : Game) (player : Player) : Game × Nat × Option GameErr :=
  if g.players.any (fun p => p.name == player.name) then
    (g, t, some .duplicatePlayerName)
  else
    dealPunchlines σ t { g with players := g.players ++ [player] }

/-- The index-selection loop of `createRounds`: pick `need` indices below
`len`, retrying (`i--; continue`) on duplicates.  `fuel` bounds the retries;
exhausting it models the Go loop spinning forever. -/
def pickSetupIndices (σ : Nat → Nat) : Nat → Nat → Nat → Nat → List Nat → Option (List Nat × Nat)
  | 0, _, _ + 1, _, _ => none
  | _, t, 0, _, chosen => some (chosen, t)
  | fuel + 1, t, need + 1, len, chosen =>
    let index := σ t % len
    if index ∈ chosen then pickSetupIndices σ fuel (t + 1) (need + 1) len chosen
    else pickSetupIndices σ fuel (t + 1) need len (chosen ++ [index])

/-- Distribution of the chosen indices over rounds: index `i` of the draw
order goes to `Rounds[i/2].Setup[i%2]`, i.e. consecutive pairs in draw
order form the rounds. -/
def assembleRounds (setups : List Card) : List Nat → List Round
  | i :: j :: rest => ⟨(setups.getD i "", setups.getD j ""), [], []⟩ :: assembleRounds setups rest
  | _ => []

/-- Embeds `func (g *Game) createRounds(setups []Card) error`. -/
def Game.createRounds (σ : Nat → Nat) (t fuel : Nat) (g : Game) (setups : List Card) : Option (Except GameErr (Game × Nat)) :=
  if g.roundsRemaining * 2 > setups.length then some (.error .tooFewSetups)
  else
    match pickSetupIndices σ fuel t (g.roundsRemaining * 2) setups.length [] with
    | none => none
    | some (chosen, t') => some (.ok ({ g with rounds := assembleRounds setups chosen }, t'))

/-- The value of `time.Hour * 12` in nanoseconds, the idle-expiry window of `findID`. -/
def twelveHours : Nat := 12 * 3600 * 1000000000

/-- Lookup in the package-level `games` registry.  A stored `nil` pointer
(left behind by `findID`'s reclaim branch) is `some none`. -/
def lookupGame (id : Nat) : List (Nat × Option Nat) → Option (Option Nat)
  | [] => none
  | (k, v) :: rest => if k = id then some v else lookupGame id rest

/-- Embeds `games[id] = v` on the registry. -/
def setGame (id : Nat) (v : Option Nat) : List (Nat × Option Nat) → List (Nat × Option Nat)
  | [] => [(id, v)]
  | (k, w) :: rest => if k = id then (k, v) :: rest else (k, w) :: setGame id v rest

/-- The probe loop of `findID`.  `now` is the current time in nanoseconds;
each registry entry stores `Game.Created`.  Dereferencing a `nil` entry
(`game.Created` on a reclaimed slot) is a panic, modelled as `none`. -/
def findIDAux (σ : Nat → Nat) (now : Nat) (games : List (Nat × Option Nat)) : Nat → Nat → Option (Except GameErr (Nat × List (Nat × Option Nat)))
  | _, 0 => some (.error .noGamesAvailable)
  | t, attempts + 1 =>
    let id := σ t % 99
    match lookupGame id games with
    | none => some (.ok (id, games))
    | some none => none
    | some (some created) =>
      if now < created + twelveHours then some (.ok (id, setGame id none games))
      else findIDAux σ now games (t + 1) attempts

/-- Embeds `func findID() (int, error)` with its `maxAttempts := 100`. -/
def findID (σ : Nat → Nat) (t : Nat) (now : Nat) (games : List (Nat × Option Nat)) : Option (Except GameErr (Nat × List (Nat × Option Nat))) :=
  findIDAux σ now games t 100

/-- The `ranks` table of `isCleanEnough`. -/
def ranks (s : String) : Option Nat :=
  if s = "G" then some 0
  else if s = "PG" then some 1
  else if s = "PG-13" then some 2
  else if s = "R" then some 3
  else if s = "X" then some 4
  else none

/-- Embeds `func isCleanEnough(cardCleanliness, cleanliness string) (bool, error)`. -/
def isCleanEnough (cardCleanliness cleanliness : String) : Except GameErr Bool :=
  match ranks cardCleanliness with
  | none => .error .malformedCSV
  | some cardRank =>
    match ranks cleanliness with
    | none => .error .malformedCSV
    | some rank => .ok (decide (cardRank ≤ rank))

/-- Go's `strings.TrimSpace`: strip whitespace from both ends.  (Modelled
on the character list so that concrete instances evaluate; `String.trim`
itself does not reduce in the kernel.) -/
def trimSpace (s : String) : String :=
  ⟨((s.data.dropWhile Char.isWhitespace).reverse.dropWhile Char.isWhitespace).reverse⟩

/-- The row loop of `getCardsCsv`, applied to the already-parsed CSV rows:
reject rows that do not have exactly two fields (`len(line) != 2`, i.e. the
row is not of the shape `[text, rating]`), filter by
`isCleanEnough(line[1], cleanliness)`, and `TrimSpace` the kept texts. -/
def getCardsRows (cleanliness : String) : List (List String) → Except GameErr (List Card)
  | [] => .ok []
  | line :: rest =>
    match line with
    | [text, rating] =>
      match isCleanEnough rating cleanliness with
      | .error e => .error e
      | .ok cleanEnough =>
        match getCardsRows cleanliness rest with
        | .error e => .error e
        | .ok cards => .ok (if cleanEnough then trimSpace text :: cards else cards)
    | _ => .error .malformedCSV

/-- The multiset of cards held in players' hands. -/
def handsCards (g : Game) : List Card := (g.players.map Player.punchlines).flatten

/-- The union of all hands and the shared punchline pool. -/
def allCards (g : Game) : List Card := handsCards g ++ g.punchlines

/-- Sum of the players' hand deficits, Go's `handSize - len(punchlines)`
per player (truncated at zero exactly as the Go loop deals zero cards to an
overfull hand). -/
def deficitSum (players : List Player) : Nat :=
  (players.map (fun p => handSize - p.punchlines.length)).sum

/-- All setup cards of a round sequence, in position order. -/
def setupList (rounds : List Round) : List Card :=
  rounds.flatMap (fun r => [r.setup.1, r.setup.2])

/-! ## Permutation facts about the swap-remove draw -/

lemma getLastD_dropLast_perm (l : List Card) : ∀ e : Card, l ≠ [] →
    (l.getLastD e :: l.dropLast).Perm l := by
  induction l with
  | nil => intro e h; exact absurd rfl h
  | cons a t ih =>
    intro e _
    cases t with
    | nil => simp
    | cons b t' =>
      rw [List.getLastD_cons, List.dropLast_cons_of_ne_nil (by simp)]
      exact (List.Perm.swap a _ _).trans (List.Perm.cons a (ih a (by simp)))

lemma swapRemove_perm : ∀ (l : List Card) (i : Nat) (d e : Card), i < l.length →
    ((l.getD i d) :: ((l.set i (l.getLastD e)).dropLast)).Perm l := by
  intro l
  induction l with
  | nil => intro i d e h; simp at h
  | cons a t ih =>
    intro i d e h
    cases i with
    | zero =>
      rw [List.getD_cons_zero, List.getLastD_cons, List.set_cons_zero]
      cases t with
      | nil => simp
      | cons b t' =>
        have hd : ((b :: t').getLastD a :: b :: t').dropLast =
            (b :: t').getLastD a :: (b :: t').dropLast :=
          List.dropLast_cons_of_ne_nil (by simp)
        rw [hd]
        exact List.Perm.cons a (getLastD_dropLast_perm _ a (by simp))
    | succ i =>
      have hi : i < t.length := by simpa using h
      have htne : t.set i (t.getLastD a) ≠ [] := by
        intro hc
        have h2 : (t.set i (t.getLastD a)).length = t.length := List.length_set _ _ _
        rw [hc] at h2
        simp at h2
        omega
      rw [List.getD_cons_succ, List.getLastD_cons, List.set_cons_succ,
        List.dropLast_cons_of_ne_nil htne]
      exact (List.Perm.swap a _ _).trans (List.Perm.cons a (ih i d a hi))

/-! ## Facts about `drawCards` -/

lemma drawCards_spec : ∀ (n : Nat) (σ : Nat → Nat) (t : Nat) (hand pool : List Card),
    n ≤ pool.length →
    ((drawCards σ t n hand pool).1 ++ (drawCards σ t n hand pool).2.1).Perm (hand ++ pool) ∧
    (drawCards σ t n hand pool).1.length = hand.length + n ∧
    (drawCards σ t n hand pool).2.1.length = pool.length - n := by
  intro n
  induction n with
  | zero => intro σ t hand pool _; exact ⟨List.Perm.refl _, by simp [drawCards], by simp [drawCards]⟩
  | succ n ih =>
    intro σ t hand pool hn
    have hpos : 0 < pool.length := by omega
    have hidx : σ t % pool.length < pool.length := Nat.mod_lt _ hpos
    have hstep : drawCards σ t (n + 1) hand pool =
        drawCards σ (t + 1) n (hand ++ [pool.getD (σ t % pool.length) ""])
          ((pool.set (σ t % pool.length) (pool.getLastD "")).dropLast) := rfl
    have hplen : ((pool.set (σ t % pool.length) (pool.getLastD "")).dropLast).length = pool.length - 1 := by
      simp
    have hn' : n ≤ ((pool.set (σ t % pool.length) (pool.getLastD "")).dropLast).length := by omega
    obtain ⟨hperm, hhand, hpool⟩ := ih σ (t + 1) (hand ++ [pool.getD (σ t % pool.length) ""])
      ((pool.set (σ t % pool.length) (pool.getLastD "")).dropLast) hn'
    rw [hstep]
    refine ⟨hperm.trans ?_, by rw [hhand]; simp; omega, by rw [hpool, hplen]; omega⟩
    rw [List.append_assoc]
    exact List.Perm.append_left hand (swapRemove_perm pool (σ t % pool.length) "" "" hidx)

/-! ## Facts about `dealLoop` / `dealPunchlines` -/

open List

lemma deficitSum_cons (p : Player) (rest : List Player) :
    deficitSum (p :: rest) = (handSize - p.punchlines.length) + deficitSum rest := by
  simp [deficitSum]

lemma dealLoop_cons (σ : Nat → Nat) (t : Nat) (pool : List Card) (p : Player) (rest : List Player) :
    dealLoop σ t pool (p :: rest) =
      if handSize - p.punchlines.length > pool.length then
        (p :: rest, pool, t, some GameErr.tooFewPunchlines)
      else
        match drawCards σ t (handSize - p.punchlines.length) p.punchlines pool with
        | (hand', pool', t') =>
          match dealLoop σ t' pool' rest with
          | (rest', pool'', t'', e) => ({ p with punchlines := hand' } :: rest', pool'', t'', e) := rfl

lemma dealLoop_perm : ∀ (players : List Player) (σ : Nat → Nat) (t : Nat) (pool : List Card)
    (ps₂ : List Player) (pool₂ : List Card) (t₂ : Nat) (e : Option GameErr),
    dealLoop σ t pool players = (ps₂, pool₂, t₂, e) →
    ((ps₂.map Player.punchlines).flatten ++ pool₂).Perm ((players.map Player.punchlines).flatten ++ pool) := by
  intro players
  induction players with
  | nil =>
    intro σ t pool ps₂ pool₂ t₂ e hres
    simp only [dealLoop, Prod.mk.injEq] at hres
    obtain ⟨rfl, rfl, rfl, rfl⟩ := hres
    simp
  | cons p rest ih =>
    intro σ t pool ps₂ pool₂ t₂ e hres
    rw [dealLoop_cons] at hres
    by_cases hg : handSize - p.punchlines.length > pool.length
    · rw [if_pos hg] at hres
      simp only [Prod.mk.injEq] at hres
      obtain ⟨rfl, rfl, rfl, rfl⟩ := hres
      exact List.Perm.refl _
    · rw [if_neg hg] at hres
      obtain ⟨⟨hand', pool', t'⟩, hdr⟩ :
          ∃ x, drawCards σ t (handSize - p.punchlines.length) p.punchlines pool = x := ⟨_, rfl⟩
      obtain ⟨⟨rest', pool'', t'', e'⟩, hdl⟩ : ∃ x, dealLoop σ t' pool' rest = x := ⟨_, rfl⟩
      rw [hdr] at hres
      simp only at hres
      rw [hdl] at hres
      simp only [Prod.mk.injEq] at hres
      obtain ⟨rfl, rfl, rfl, rfl⟩ := hres
      have hn : handSize - p.punchlines.length ≤ pool.length := by omega
      have hdraw := drawCards_spec (handSize - p.punchlines.length) σ t p.punchlines pool hn
      rw [hdr] at hdraw
      have hperm1 : (hand' ++ pool').Perm (p.punchlines ++ pool) := hdraw.1
      have ihr : ((rest'.map Player.punchlines).flatten ++ pool'').Perm
          ((rest.map Player.punchlines).flatten ++ pool') := ih σ t' pool' rest' pool'' t'' e' hdl
      simp only [List.map_cons, List.flatten_cons]
      calc (hand' ++ (rest'.map Player.punchlines).flatten) ++ pool''
          = hand' ++ ((rest'.map Player.punchlines).flatten ++ pool'') := List.append_assoc _ _ _
        _ ~ hand' ++ ((rest.map Player.punchlines).flatten ++ pool') := List.Perm.append_left _ ihr
        _ ~ hand' ++ (pool' ++ (rest.map Player.punchlines).flatten) := List.Perm.append_left _ List.perm_append_comm
        _ = (hand' ++ pool') ++ (rest.map Player.punchlines).flatten := (List.append_assoc _ _ _).symm
        _ ~ (p.punchlines ++ pool) ++ (rest.map Player.punchlines).flatten := List.Perm.append_right _ hperm1
        _ = p.punchlines ++ (pool ++ (rest.map Player.punchlines).flatten) := List.append_assoc _ _ _
        _ ~ p.punchlines ++ ((rest.map Player.punchlines).flatten ++ pool) := List.Perm.append_left _ List.perm_append_comm
        _ = (p.punchlines ++ (rest.map Player.punchlines).flatten) ++ pool := (List.append_assoc _ _ _).symm

lemma dealLoop_length : ∀ (players : List Player) (σ : Nat → Nat) (t : Nat) (pool : List Card)
    (ps₂ : List Player) (pool₂ : List Card) (t₂ : Nat) (e : Option GameErr),
    dealLoop σ t pool players = (ps₂, pool₂, t₂, e) → ps₂.length = players.length := by
  intro players
  induction players with
  | nil =>
    intro σ t pool ps₂ pool₂ t₂ e hres
    simp only [dealLoop, Prod.mk.injEq] at hres
    obtain ⟨rfl, rfl, rfl, rfl⟩ := hres
    rfl
  | cons p rest ih =>
    intro σ t pool ps₂ pool₂ t₂ e hres
    rw [dealLoop_cons] at hres
    by_cases hg : handSize - p.punchlines.length > pool.length
    · rw [if_pos hg] at hres
      simp only [Prod.mk.injEq] at hres
      obtain ⟨rfl, rfl, rfl, rfl⟩ := hres
      rfl
    · rw [if_neg hg] at hres
      obtain ⟨⟨hand', pool', t'⟩, hdr⟩ :
          ∃ x, drawCards σ t (handSize - p.punchlines.length) p.punchlines pool = x := ⟨_, rfl⟩
      obtain ⟨⟨rest', pool'', t'', e'⟩, hdl⟩ : ∃ x, dealLoop σ t' pool' rest = x := ⟨_, rfl⟩
      rw [hdr] at hres
      simp only at hres
      rw [hdl] at hres
      simp only [Prod.mk.injEq] at hres
      obtain ⟨rfl, rfl, rfl, rfl⟩ := hres
      simp [ih σ t' pool' rest' pool'' t'' e' hdl]

lemma dealLoop_none : ∀ (players : List Player) (σ : Nat → Nat) (t : Nat) (pool : List Card)
    (ps₂ : List Player) (pool₂ : List Card) (t₂ : Nat) (e : Option GameErr),
    dealLoop σ t pool players = (ps₂, pool₂, t₂, e) →
    (∀ p ∈ players, p.punchlines.length ≤ handSize) →
    deficitSum players ≤ pool.length →
    e = none ∧ (∀ p' ∈ ps₂, p'.punchlines.length = handSize) ∧
      pool₂.length = pool.length - deficitSum players := by
  intro players
  induction players with
  | nil =>
    intro σ t pool ps₂ pool₂ t₂ e hres _ _
    simp only [dealLoop, Prod.mk.injEq] at hres
    obtain ⟨rfl, rfl, rfl, rfl⟩ := hres
    simp [deficitSum]
  | cons p rest ih =>
    intro σ t pool ps₂ pool₂ t₂ e hres hb hd
    rw [deficitSum_cons] at hd
    have hple : p.punchlines.length ≤ handSize := hb p (by simp)
    have hg : ¬ handSize - p.punchlines.length > pool.length := by omega
    rw [dealLoop_cons, if_neg hg] at hres
    obtain ⟨⟨hand', pool', t'⟩, hdr⟩ :
        ∃ x, drawCards σ t (handSize - p.punchlines.length) p.punchlines pool = x := ⟨_, rfl⟩
    obtain ⟨⟨rest', pool'', t'', e'⟩, hdl⟩ : ∃ x, dealLoop σ t' pool' rest = x := ⟨_, rfl⟩
    rw [hdr] at hres
    simp only at hres
    rw [hdl] at hres
    simp only [Prod.mk.injEq] at hres
    obtain ⟨rfl, rfl, rfl, rfl⟩ := hres
    have hdraw := drawCards_spec (handSize - p.punchlines.length) σ t p.punchlines pool (by omega)
    rw [hdr] at hdraw
    have hh : hand'.length = handSize := by
      have h21 : hand'.length = p.punchlines.length + (handSize - p.punchlines.length) := hdraw.2.1
      omega
    have hpl : pool'.length = pool.length - (handSize - p.punchlines.length) := hdraw.2.2
    obtain ⟨he, hall, hpl2⟩ := ih σ t' pool' rest' pool'' t'' e' hdl
      (fun q hq => hb q (by simp [hq])) (by omega)
    refine ⟨he, ?_, by rw [hpl2, hpl, deficitSum_cons]; omega⟩
    intro p' hp'
    rcases List.mem_cons.mp hp' with h1 | h1
    · rw [h1]; exact hh
    · exact hall p' h1

lemma dealLoop_some : ∀ (players : List Player) (σ : Nat → Nat) (t : Nat) (pool : List Card)
    (ps₂ : List Player) (pool₂ : List Card) (t₂ : Nat) (e : Option GameErr),
    dealLoop σ t pool players = (ps₂, pool₂, t₂, e) →
    (∀ p ∈ players, p.punchlines.length ≤ handSize) →
    pool.length < deficitSum players →
    e = some GameErr.tooFewPunchlines ∧
    ∃ ps₁ ps₁' q psr,
      players = ps₁ ++ q :: psr ∧
      ps₂ = ps₁' ++ q :: psr ∧
      ps₁'.length = ps₁.length ∧
      (∀ p' ∈ ps₁', p'.punchlines.length = handSize) ∧
      pool₂.length = pool.length - deficitSum ps₁ ∧
      pool₂.length < handSize - q.punchlines.length := by
  intro players
  induction players with
  | nil =>
    intro σ t pool ps₂ pool₂ t₂ e hres _ hd
    simp [deficitSum] at hd
  | cons p rest ih =>
    intro σ t pool ps₂ pool₂ t₂ e hres hb hd
    rw [deficitSum_cons] at hd
    rw [dealLoop_cons] at hres
    by_cases hg : handSize - p.punchlines.length > pool.length
    · rw [if_pos hg] at hres
      simp only [Prod.mk.injEq] at hres
      obtain ⟨rfl, rfl, rfl, rfl⟩ := hres
      refine ⟨rfl, [], [], p, rest, by simp, by simp, rfl, by simp, ?_, ?_⟩
      · simp [deficitSum]
      · omega
    · rw [if_neg hg] at hres
      obtain ⟨⟨hand', pool', t'⟩, hdr⟩ :
          ∃ x, drawCards σ t (handSize - p.punchlines.length) p.punchlines pool = x := ⟨_, rfl⟩
      obtain ⟨⟨rest', pool'', t'', e'⟩, hdl⟩ : ∃ x, dealLoop σ t' pool' rest = x := ⟨_, rfl⟩
      rw [hdr] at hres
      simp only at hres
      rw [hdl] at hres
      simp only [Prod.mk.injEq] at hres
      obtain ⟨rfl, rfl, rfl, rfl⟩ := hres
      have hple : p.punchlines.length ≤ handSize := hb p (by simp)
      have hdraw := drawCards_spec (handSize - p.punchlines.length) σ t p.punchlines pool (by omega)
      rw [hdr] at hdraw
      have hh : hand'.length = handSize := by
        have h21 : hand'.length = p.punchlines.length + (handSize - p.punchlines.length) := hdraw.2.1
        omega
      have hpl : pool'.length = pool.length - (handSize - p.punchlines.length) := hdraw.2.2
      obtain ⟨he, ps₁, ps₁', q, psr, hpe, hpe', hlen, hall, hpoole, hpoolb⟩ :=
        ih σ t' pool' rest' pool'' t'' e' hdl (fun r hr => hb r (by simp [hr])) (by omega)
      refine ⟨he, p :: ps₁, { p with punchlines := hand' } :: ps₁', q, psr, ?_, ?_, ?_, ?_, ?_, hpoolb⟩
      · rw [hpe]; rfl
      · rw [hpe']; rfl
      · simp [hlen]
      · intro p' hp'
        rcases List.mem_cons.mp hp' with h1 | h1
        · rw [h1]; exact hh
        · exact hall p' h1
      · rw [hpoole, hpl, deficitSum_cons]; omega

lemma dealPunchlines_def (σ : Nat → Nat) (t : Nat) (g : Game) (ps₂ : List Player)
    (pool₂ : List Card) (t₂ : Nat) (e : Option GameErr)
    (h : dealLoop σ t g.punchlines g.players = (ps₂, pool₂, t₂, e)) :
    dealPunchlines σ t g = ({ g with players := ps₂, punchlines := pool₂ }, t₂, e) := by
  rw [dealPunchlines, h]

lemma dealPunchlines_allCards (σ : Nat → Nat) (t : Nat) (g : Game) :
    (allCards (dealPunchlines σ t g).1).Perm (allCards g) := by
  obtain ⟨⟨ps₂, pool₂, t₂, e⟩, h⟩ : ∃ x, dealLoop σ t g.punchlines g.players = x := ⟨_, rfl⟩
  rw [dealPunchlines_def σ t g ps₂ pool₂ t₂ e h]
  simpa [allCards, handsCards] using dealLoop_perm g.players σ t g.punchlines ps₂ pool₂ t₂ e h

/-! ## Concrete instances used by witnesses and counterexamples -/

/-- A concrete random stream: always yields 0. -/
def σ0 : Nat → Nat := fun _ => 0

/-- A concrete random stream: yields the call index. -/
def σid : Nat → Nat := fun t => t

/-- One player four cards short of a full hand, a pool of one card:
the refill example of the specification. -/
def gC6w : Game :=
  { id := 0, players := [⟨"al", ["a", "b", "c", "d"]⟩], punchlines := ["1"],
    rounds := [], roundsRemaining := 0, currentAction := PLAY }

/-- One player holding seven cards (more than `handSize`), empty pool. -/
def gC6c : Game :=
  { id := 0, players := [⟨"al", ["a", "b", "c", "d", "e", "f", "g"]⟩], punchlines := [],
    rounds := [], roundsRemaining := 0, currentAction := PLAY }

/-- One player with a full hand and a pool of a single card. -/
def gC8 : Game :=
  { id := 0, players := [⟨"al", ["a", "b", "c", "d", "e", "f"]⟩], punchlines := ["1"],
    rounds := [], roundsRemaining := 1, currentAction := PLAY }

/-! ## C6: the hand-refill contract of `dealPunchlines` -/

/-- C6 (amended): provided no hand exceeds `handSize`, `dealPunchlines`
brings every player's hand to exactly `handSize` when the pool covers the
total deficit (a hand already above `handSize` is left as is, which is why
the bound is needed); otherwise it fails with `ErrTooFewPunchlines`, the
players decompose into a fully-refilled prefix, the aborting player whose
deficit exceeds the remaining pool, and an untouched suffix — cards dealt
to the prefix are not rolled back and the pool keeps its remaining cards. -/
theorem C6_refill_contract (σ : Nat → Nat) (t : Nat) (g : Game)
    (hb : ∀ p ∈ g.players, p.punchlines.length ≤ handSize) :
    (deficitSum g.players ≤ g.punchlines.length →
      (dealPunchlines σ t g).2.2 = none ∧
      (∀ p' ∈ (dealPunchlines σ t g).1.players, p'.punchlines.length = handSize) ∧
      (dealPunchlines σ t g).1.punchlines.length = g.punchlines.length - deficitSum g.players) ∧
    (g.punchlines.length < deficitSum g.players →
      (dealPunchlines σ t g).2.2 = some GameErr.tooFewPunchlines ∧
      ∃ ps₁ ps₁' q psr,
        g.players = ps₁ ++ q :: psr ∧
        (dealPunchlines σ t g).1.players = ps₁' ++ q :: psr ∧
        ps₁'.length = ps₁.length ∧
        (∀ p' ∈ ps₁', p'.punchlines.length = handSize) ∧
        (dealPunchlines σ t g).1.punchlines.length = g.punchlines.length - deficitSum ps₁ ∧
        (dealPunchlines σ t g).1.punchlines.length < handSize - q.punchlines.length) := by
  obtain ⟨⟨ps₂, pool₂, t₂, e⟩, h⟩ : ∃ x, dealLoop σ t g.punchlines g.players = x := ⟨_, rfl⟩
  rw [dealPunchlines_def σ t g ps₂ pool₂ t₂ e h]
  constructor
  · intro hd
    obtain ⟨he, hall, hpl⟩ := dealLoop_none g.players σ t g.punchlines ps₂ pool₂ t₂ e h hb hd
    exact ⟨by simp [he], by simpa using hall, by simpa using hpl⟩
  · intro hd
    obtain ⟨he, hsplit⟩ := dealLoop_some g.players σ t g.punchlines ps₂ pool₂ t₂ e h hb hd
    exact ⟨by simp [he], by simpa using hsplit⟩

/-- Witness for C6: the specification's own example — pool of size 1,
a player needing 2 or more cards — hits the failure branch. -/
theorem C6_refill_contract_witness :
    (∀ p ∈ gC6w.players, p.punchlines.length ≤ handSize) ∧
    (gC6w.punchlines.length < deficitSum gC6w.players) ∧
    (dealPunchlines σ0 0 gC6w).2.2 = some GameErr.tooFewPunchlines :=
  ⟨by decide, by decide, ((C6_refill_contract σ0 0 gC6w (by decide)).2 (by decide)).1⟩

/-- Counterexample to C6 as stated: a player holding 7 cards has no deficit,
so the empty pool "covers every player's deficit", yet the refill returns no
error and leaves the hand at 7 cards, not at `targetHandSize = 6`. -/
theorem C6_counterexample :
    deficitSum gC6c.players ≤ gC6c.punchlines.length ∧
    (dealPunchlines σ0 0 gC6c).2.2 = none ∧
    ∃ p ∈ (dealPunchlines σ0 0 gC6c).1.players, p.punchlines.length ≠ handSize := by
  decide

/-! ## C8: atomicity of failed mutators -/

/-- C8 (amended): a join that fails the duplicate-name check returns the
error with the session unchanged; any other join appends the new player
before refilling, so a join whose refill fails still leaves the new player
appended (and keeps the partial refill).  `Play`/`Vote` return no errors at
all in this code (their internal refill error is discarded). -/
theorem C8_failed_mutator_state (σ : Nat → Nat) (t : Nat) (g : Game) (pl : Player) :
    ((∃ q ∈ g.players, q.name = pl.name) →
      Game.AddPlayer σ t g pl = (g, t, some GameErr.duplicatePlayerName)) ∧
    ((∀ q ∈ g.players, q.name ≠ pl.name) →
      (Game.AddPlayer σ t g pl).1.players.length = g.players.length + 1) := by
  constructor
  · rintro ⟨q, hq, hname⟩
    have hany : (g.players.any fun p => p.name == pl.name) = true :=
      List.any_eq_true.mpr ⟨q, hq, by simp [hname]⟩
    rw [Game.AddPlayer, if_pos hany]
  · intro hno
    have hany : (g.players.any fun p => p.name == pl.name) = false :=
      List.any_eq_false.mpr (fun q hq => by simpa using hno q hq)
    rw [Game.AddPlayer, if_neg (by simp [hany])]
    obtain ⟨⟨ps₂, pool₂, t₂, e⟩, h⟩ :
        ∃ x, dealLoop σ t g.punchlines (g.players ++ [pl]) = x := ⟨_, rfl⟩
    have hd : dealPunchlines σ t { g with players := g.players ++ [pl] } =
        ({ g with players := ps₂, punchlines := pool₂ }, t₂, e) :=
      dealPunchlines_def σ t _ ps₂ pool₂ t₂ e h
    rw [hd]
    have hl := dealLoop_length (g.players ++ [pl]) σ t g.punchlines ps₂ pool₂ t₂ e h
    simp at hl ⊢
    omega

/-- Witness for C8: a duplicate-name join on a concrete session. -/
theorem C8_failed_mutator_state_witness :
    (∃ q ∈ gC8.players, q.name = "al") ∧
    Game.AddPlayer σ0 0 gC8 ⟨"al", []⟩ = (gC8, 0, some GameErr.duplicatePlayerName) :=
  ⟨by decide, (C8_failed_mutator_state σ0 0 gC8 ⟨"al", []⟩).1 (by decide)⟩

/-- Counterexample to C8 as stated: the join below fails (the pool cannot
refill the newcomer's hand), yet the new player is left appended to the
session's player list. -/
theorem C8_counterexample :
    (Game.AddPlayer σ0 0 gC8 ⟨"bob", []⟩).2.2 = some GameErr.tooFewPunchlines ∧
    (Game.AddPlayer σ0 0 gC8 ⟨"bob", []⟩).1.players = gC8.players ++ [⟨"bob", []⟩] := by
  decide

/-! ## C4: session-id allocation (`findID`) -/

/-- C4 (code bug): the expiry comparison in `findID` is inverted.  The
registry below holds a single session created at the probe instant (as live
as a session can be: `Created.Add(12h).After(now)` holds), yet `findID`
returns its id — after overwriting the live session's slot with `nil` —
instead of treating the id as occupied.  Symmetrically, an id whose session
has genuinely exceeded the 12-hour window is never reclaimed (the loop skips
it), so saturation with live sessions yields ids while saturation with
expired ones yields `ErrNoGamesAvailable` — the exact opposite of the
specified contract. -/
theorem C4_findID_reclaims_live_session :
    findID (fun _ => 5) 0 0 [(5, some 0)] = some (Except.ok (5, [(5, none)])) ∧
    0 < 0 + twelveHours ∧
    findID (fun _ => 5) 0 (twelveHours + 1) [(5, some 0)] =
      some (Except.error GameErr.noGamesAvailable) := by
  refine ⟨rfl, by decide, ?_⟩
  rfl

/-! ## C9: the card eligibility filter -/

/-- A CSV row is well formed for the filter when it has exactly two fields
and its rating is on the `G < PG < PG-13 < R < X` scale. -/
def validRow (l : List String) : Prop :=
  ∃ text rating, l = [text, rating] ∧ (ranks rating).isSome

instance : DecidablePred validRow := by
  intro l
  rcases l with _ | ⟨a, _ | ⟨b, _ | ⟨c, tl⟩⟩⟩
  · exact .isFalse (by rintro ⟨x, y, h, -⟩; simp at h)
  · exact .isFalse (by rintro ⟨x, y, h, -⟩; simp at h)
  · rcases h : (ranks b).isSome with _ | _
    · exact .isFalse (by rintro ⟨x, y, hxy, hs⟩; simp at hxy; rw [hxy.2] at h; simp [h] at hs)
    · exact .isTrue ⟨a, b, rfl, h⟩
  · exact .isFalse (by rintro ⟨x, y, h, -⟩; simp at h)

lemma getCardsRows_ok (thr : String) (rthr : Nat) (hthr : ranks thr = some rthr) :
    ∀ rows : List (List String), (∀ l ∈ rows, validRow l) →
    getCardsRows thr rows = Except.ok
      ((rows.filter (fun l => (ranks (l.getD 1 "")).getD 0 ≤ rthr)).map
        (fun l => trimSpace (l.getD 0 ""))) := by
  intro rows
  induction rows with
  | nil => intro _; simp [getCardsRows]
  | cons line rest ih =>
    intro hv
    obtain ⟨text, rating, rfl, hsome⟩ := hv line (by simp)
    obtain ⟨cr, hcr⟩ := Option.isSome_iff_exists.mp hsome
    have hic : isCleanEnough rating thr = .ok (decide (cr ≤ rthr)) := by
      rw [isCleanEnough, hcr, hthr]
    have hrest := ih (fun l hl => hv l (by simp [hl]))
    by_cases hcle : cr ≤ rthr
    · simp [getCardsRows, hic, hrest, List.filter_cons, hcr, hcle]
    · simp [getCardsRows, hic, hrest, List.filter_cons, hcr, hcle]

lemma getCardsRows_err (thr : String) (rthr : Nat) (hthr : ranks thr = some rthr) :
    ∀ rows : List (List String), (∃ l ∈ rows, ¬ validRow l) →
    getCardsRows thr rows = Except.error GameErr.malformedCSV := by
  intro rows
  induction rows with
  | nil => rintro ⟨l, hl, -⟩; simp at hl
  | cons line rest ih =>
    rintro ⟨l, hl, hbad⟩
    rcases List.mem_cons.mp hl with rfl | hl2
    · rcases l with _ | ⟨a, _ | ⟨b, _ | ⟨c, tl⟩⟩⟩
      · simp [getCardsRows]
      · simp [getCardsRows]
      · have hrnone : ranks b = none := by
          rcases h : ranks b with _ | cr
          · rfl
          · exact absurd ⟨a, b, rfl, by simp [h]⟩ hbad
        have hic : isCleanEnough b thr = .error GameErr.malformedCSV := by
          rw [isCleanEnough, hrnone]
        simp [getCardsRows, hic]
      · simp [getCardsRows]
    · rcases line with _ | ⟨a, _ | ⟨b, _ | ⟨c, tl⟩⟩⟩
      · simp [getCardsRows]
      · simp [getCardsRows]
      · rcases h : ranks b with _ | cr
        · have hic : isCleanEnough b thr = .error GameErr.malformedCSV := by
            rw [isCleanEnough, h]
          simp [getCardsRows, hic]
        · have hic : isCleanEnough b thr = .ok (decide (cr ≤ rthr)) := by
            rw [isCleanEnough, h, hthr]
          simp [getCardsRows, hic, ih ⟨l, hl2, hbad⟩]
      · simp [getCardsRows]

/-- C9: with a threshold drawn from the rating scale, a row's card is
included in the returned sequence iff its rating rank is at most the
threshold's rank — the result is exactly the trimmed first columns of the
eligible rows, in order — and any row that does not have exactly two
columns, or whose rating lies outside the scale, makes the whole load fail
with `ErrMalformedCSV`. -/
theorem C9_card_eligibility (thr : String) (rows : List (List String)) (rthr : Nat)
    (hthr : ranks thr = some rthr) :
    ((∀ l ∈ rows, validRow l) →
      getCardsRows thr rows = Except.ok
        ((rows.filter (fun l => (ranks (l.getD 1 "")).getD 0 ≤ rthr)).map
          (fun l => trimSpace (l.getD 0 "")))) ∧
    ((∃ l ∈ rows, ¬ validRow l) →
      getCardsRows thr rows = Except.error GameErr.malformedCSV) :=
  ⟨getCardsRows_ok thr rthr hthr rows, getCardsRows_err thr rthr hthr rows⟩

/-- Witness for C9, on the repository's own test data: threshold `G` keeps
only the `G`-rated row. -/
theorem C9_card_eligibility_witness :
    ranks "G" = some 0 ∧
    getCardsRows "G" [["test", "R"], ["test2", "R"], ["test3", "G"]] =
      Except.ok ["test3"] := by
  refine ⟨by decide, ?_⟩
  have h := (C9_card_eligibility "G" [["test", "R"], ["test2", "R"], ["test3", "G"]] 0
    (by decide)).1 (by decide)
  rw [h]
  exact congrArg Except.ok (by decide)

/-! ## C5: round construction (`createRounds`) -/

lemma pickSetupIndices_spec (σ : Nat → Nat) (len : Nat) :
    ∀ (fuel t need : Nat) (chosen chosen' : List Nat) (t' : Nat),
    pickSetupIndices σ fuel t need len chosen = some (chosen', t') →
    chosen.Nodup → (∀ i ∈ chosen, i < len) → (need = 0 ∨ 0 < len) →
    chosen'.Nodup ∧ chosen'.length = chosen.length + need ∧ ∀ i ∈ chosen', i < len := by
  intro fuel
  induction fuel with
  | zero =>
    intro t need chosen chosen' t' hres hnd hbnd hlen
    cases need with
    | zero =>
      simp only [pickSetupIndices, Option.some.injEq, Prod.mk.injEq] at hres
      obtain ⟨rfl, rfl⟩ := hres
      exact ⟨hnd, by omega, hbnd⟩
    | succ n => simp [pickSetupIndices] at hres
  | succ fuel ih =>
    intro t need chosen chosen' t' hres hnd hbnd hlen
    cases need with
    | zero =>
      simp only [pickSetupIndices, Option.some.injEq, Prod.mk.injEq] at hres
      obtain ⟨rfl, rfl⟩ := hres
      exact ⟨hnd, by omega, hbnd⟩
    | succ n =>
      have hlen' : 0 < len := by omega
      simp only [pickSetupIndices] at hres
      by_cases hmem : σ t % len ∈ chosen
      · rw [if_pos hmem] at hres
        obtain ⟨h1, h2, h3⟩ := ih (t + 1) (n + 1) chosen chosen' t' hres hnd hbnd (Or.inr hlen')
        exact ⟨h1, h2, h3⟩
      · rw [if_neg hmem] at hres
        have hidx : σ t % len < len := Nat.mod_lt _ hlen'
        have hnd2 : (chosen ++ [σ t % len]).Nodup := by
          simp [List.nodup_append, hnd, hmem]
        have hbnd2 : ∀ i ∈ chosen ++ [σ t % len], i < len := by
          intro i hi
          rcases List.mem_append.mp hi with h | h
          · exact hbnd i h
          · simp at h
            omega
        obtain ⟨h1, h2, h3⟩ := ih (t + 1) n (chosen ++ [σ t % len]) chosen' t' hres hnd2 hbnd2
          (by omega)
        refine ⟨h1, ?_, h3⟩
        simp at h2
        omega

lemma assembleRounds_length (setups : List Card) :
    ∀ chosen : List Nat, (assembleRounds setups chosen).length = chosen.length / 2
  | [] => by simp [assembleRounds]
  | [i] => by simp [assembleRounds]
  | i :: j :: rest => by
    simp only [assembleRounds, List.length_cons, assembleRounds_length setups rest]
    omega

lemma setupList_assembleRounds (setups : List Card) :
    ∀ chosen : List Nat, chosen.length % 2 = 0 →
    setupList (assembleRounds setups chosen) = chosen.map (fun i => setups.getD i "")
  | [] => by intro _; simp [assembleRounds, setupList]
  | [i] => by intro h; simp at h
  | i :: j :: rest => by
    intro h
    have hr : rest.length % 2 = 0 := by simp at h; omega
    show ((setups.getD i "") :: (setups.getD j "") :: setupList (assembleRounds setups rest)) =
      (i :: j :: rest).map (fun k => setups.getD k "")
    rw [setupList_assembleRounds setups rest hr, List.map_cons, List.map_cons]

lemma setupList_nodup_pairs : ∀ rounds : List Round, (setupList rounds).Nodup →
    ∀ r ∈ rounds, r.setup.1 ≠ r.setup.2 := by
  intro rounds
  induction rounds with
  | nil => simp
  | cons r rest ih =>
    intro hnd r' hr'
    have hnd' : (r.setup.1 :: r.setup.2 :: setupList rest).Nodup := by
      simpa [setupList] using hnd
    rcases List.mem_cons.mp hr' with rfl | h
    · have := List.nodup_cons.mp hnd'
      simp at this
      exact this.1.1
    · exact ih (List.nodup_cons.mp (List.nodup_cons.mp hnd').2).2 r' h

/-- A fresh one-round session, before `createRounds` has filled `Rounds`. -/
def gC5 : Game :=
  { id := 0, players := [], punchlines := [], rounds := [],
    roundsRemaining := 1, currentAction := PLAY }

/-- C5 (amended): `createRounds` fails with `ErrTooFewSetups` exactly when
fewer than `roundsRemaining * 2` setup cards are supplied; a terminating
successful run yields exactly `roundsRemaining` rounds and — provided the
supplied card list itself has no duplicates — no setup card appears in more
than one position, so each round's two cards are distinct.  (Distinctness is
by index only: a duplicated input card can occupy both slots of a round, see
the counterexample.) -/
theorem C5_round_construction (σ : Nat → Nat) (t fuel : Nat) (g : Game) (setups : List Card) :
    (Game.createRounds σ t fuel g setups = some (Except.error GameErr.tooFewSetups) ↔
      setups.length < g.roundsRemaining * 2) ∧
    (∀ g' t', setups.Nodup → Game.createRounds σ t fuel g setups = some (Except.ok (g', t')) →
      g'.rounds.length = g.roundsRemaining ∧
      (setupList g'.rounds).Nodup ∧
      ∀ r ∈ g'.rounds, r.setup.1 ≠ r.setup.2) := by
  constructor
  · by_cases hlt : g.roundsRemaining * 2 > setups.length
    · rw [Game.createRounds, if_pos hlt]
      simp
      omega
    · rw [Game.createRounds, if_neg hlt]
      rcases hp : pickSetupIndices σ fuel t (g.roundsRemaining * 2) setups.length [] with _ | ⟨chosen, t₂⟩
      · simp
        omega
      · simp
        omega
  · intro g' t' hnodup hres
    by_cases hlt : g.roundsRemaining * 2 > setups.length
    · rw [Game.createRounds, if_pos hlt] at hres
      simp at hres
    · rw [Game.createRounds, if_neg hlt] at hres
      rcases hp : pickSetupIndices σ fuel t (g.roundsRemaining * 2) setups.length [] with _ | ⟨chosen, t₂⟩
      · rw [hp] at hres
        simp at hres
      · rw [hp] at hres
        simp only [Option.some.injEq, Except.ok.injEq, Prod.mk.injEq] at hres
        obtain ⟨h1, -⟩ := hres
        obtain ⟨hcnd, hclen, hcbnd⟩ := pickSetupIndices_spec σ setups.length fuel t
          (g.roundsRemaining * 2) [] chosen t₂ hp (by simp) (by simp) (by omega)
        have hclen' : chosen.length = g.roundsRemaining * 2 := by simpa using hclen
        have heven : chosen.length % 2 = 0 := by omega
        have hsl : setupList (assembleRounds setups chosen) =
            chosen.map (fun i => setups.getD i "") := setupList_assembleRounds setups chosen heven
        have hslnd : (setupList (assembleRounds setups chosen)).Nodup := by
          rw [hsl]
          refine List.Nodup.map_on ?_ hcnd
          intro i hi j hj hij
          have hib : i < setups.length := hcbnd i hi
          have hjb : j < setups.length := hcbnd j hj
          rw [List.getD_eq_getElem setups "" hib, List.getD_eq_getElem setups "" hjb] at hij
          exact (List.Nodup.getElem_inj_iff hnodup).mp hij
        rw [← h1]
        refine ⟨?_, hslnd, setupList_nodup_pairs _ hslnd⟩
        rw [assembleRounds_length]
        omega

/-- Witness for C5: two distinct setup cards build one round holding both. -/
theorem C5_round_construction_witness :
    (["a", "b"] : List Card).Nodup ∧
    (({ gC5 with rounds := [⟨("a", "b"), [], []⟩] } : Game).rounds.length = gC5.roundsRemaining ∧
      (setupList ({ gC5 with rounds := [⟨("a", "b"), [], []⟩] } : Game).rounds).Nodup ∧
      ∀ r ∈ ({ gC5 with rounds := [⟨("a", "b"), [], []⟩] } : Game).rounds, r.setup.1 ≠ r.setup.2) :=
  ⟨by decide, (C5_round_construction σid 0 2 gC5 ["a", "b"]).2
    { gC5 with rounds := [⟨("a", "b"), [], []⟩] } 2 (by decide) rfl⟩

/-- Counterexample to C5 as stated: with the duplicated input `["a", "a"]`
the build succeeds and returns a round whose two setup cards are equal —
"2 distinct setup cards" holds only index-wise, not card-wise. -/
theorem C5_counterexample :
    (gC5.roundsRemaining * 2 ≤ (["a", "a"] : List Card).length) ∧
    Game.createRounds σid 0 2 gC5 ["a", "a"] =
      some (Except.ok ({ gC5 with rounds := [⟨("a", "a"), [], []⟩] }, 2)) ∧
    ∃ r ∈ ({ gC5 with rounds := [⟨("a", "a"), [], []⟩] } : Game).rounds, r.setup.1 = r.setup.2 :=
  ⟨by decide, rfl, by decide⟩

/-! ## The removal loop of `Play` -/

lemma rmScan_succ (card : Card) (j steps : Nat) (backing : List Card) (curLen : Nat) :
    rmScan card j (steps + 1) backing curLen =
      if backing.getD j "" = card then
        if j < curLen then
          rmScan card (j + 1) steps (backing.set j (backing.getD (curLen - 1) "")) (curLen - 1)
        else none
      else rmScan card (j + 1) steps backing curLen := rfl

lemma rmScan_through (card : Card) : ∀ (k steps j : Nat) (backing : List Card) (curLen : Nat),
    (∀ i, j ≤ i → i < j + k → backing.getD i "" ≠ card) → k ≤ steps →
    rmScan card j steps backing curLen = rmScan card (j + k) (steps - k) backing curLen := by
  intro k
  induction k with
  | zero => intro steps j backing curLen _ _; simp
  | succ n ih =>
    intro steps j backing curLen h hk
    obtain ⟨m, rfl⟩ : ∃ m, steps = m + 1 := ⟨steps - 1, by omega⟩
    rw [rmScan_succ, if_neg (h j le_rfl (by omega))]
    have hrec := ih m (j + 1) backing curLen (fun i hi1 hi2 => h i (by omega) (by omega)) (by omega)
    rw [hrec]
    have e1 : j + 1 + n = j + (n + 1) := by omega
    have e2 : m - n = m + 1 - (n + 1) := by omega
    rw [e1, e2]

lemma rmFromHand_not_mem (card : Card) (hand : List Card) (h : card ∉ hand) :
    rmFromHand card hand = some hand := by
  rw [rmFromHand]
  rw [rmScan_through card hand.length hand.length 0 hand hand.length ?_ le_rfl]
  · have hz : hand.length - hand.length = 0 := by omega
    rw [hz]
    show some (hand.take hand.length) = some hand
    rw [List.take_length]
  · intro i _ hi
    rw [List.getD_eq_getElem hand "" (by omega)]
    intro hcc
    exact h (hcc ▸ List.getElem_mem _)

lemma getD_cons_length : ∀ (l : List Card) (c d : Card), (c :: l).getD l.length d = l.getLastD c := by
  intro l
  induction l with
  | nil => intro c d; rfl
  | cons b t ih =>
    intro c d
    show (c :: b :: t).getD (t.length + 1) d = _
    rw [List.getD_cons_succ, ih b d, List.getLastD_cons]

lemma set_append_middle : ∀ (l₁ : List Card) (c x : Card) (l₂ : List Card),
    (l₁ ++ c :: l₂).set l₁.length x = l₁ ++ x :: l₂ := by
  intro l₁
  induction l₁ with
  | nil => intro c x l₂; rfl
  | cons a t ih =>
    intro c x l₂
    show (a :: (t ++ c :: l₂)).set (t.length + 1) x = _
    rw [List.set_cons_succ, ih c x l₂]
    rfl

lemma rmFromHand_single (card : Card) (l₁ l₂ : List Card) (h₁ : card ∉ l₁) (h₂ : card ∉ l₂) :
    rmFromHand card (l₁ ++ card :: l₂) = some ((l₁ ++ l₂.getLastD card :: l₂).dropLast) := by
  have hlen : (l₁ ++ card :: l₂).length = l₁.length + (l₂.length + 1) := by simp
  rw [rmFromHand]
  rw [rmScan_through card l₁.length (l₁ ++ card :: l₂).length 0 _ _ ?_ (by omega)]
  · rw [Nat.zero_add, show (l₁ ++ card :: l₂).length - l₁.length = l₂.length + 1 from by omega]
    rw [rmScan_succ]
    have hmid : (l₁ ++ card :: l₂).getD l₁.length "" = card := by
      rw [List.getD_append_right l₁ _ "" l₁.length le_rfl, Nat.sub_self, List.getD_cons_zero]
    rw [if_pos hmid, if_pos (by omega : l₁.length < (l₁ ++ card :: l₂).length)]
    have hlast : (l₁ ++ card :: l₂).getD ((l₁ ++ card :: l₂).length - 1) "" = l₂.getLastD card := by
      rw [hlen, show l₁.length + (l₂.length + 1) - 1 = l₁.length + l₂.length from by omega,
        List.getD_append_right l₁ _ "" _ (by omega),
        show l₁.length + l₂.length - l₁.length = l₂.length from by omega]
      exact getD_cons_length l₂ card ""
    rw [hlast, set_append_middle l₁ card (l₂.getLastD card) l₂]
    rw [rmScan_through card l₂.length l₂.length (l₁.length + 1) _ _ ?_ le_rfl]
    · rw [Nat.sub_self]
      show some ((l₁ ++ l₂.getLastD card :: l₂).take ((l₁ ++ card :: l₂).length - 1)) = _
      rw [List.dropLast_eq_take, show (l₁ ++ l₂.getLastD card :: l₂).length =
        (l₁ ++ card :: l₂).length from by simp]
    · intro i hi1 hi2
      rw [List.getD_append_right l₁ _ "" i (by omega)]
      have hi3 : i - l₁.length = (i - l₁.length - 1) + 1 := by omega
      rw [hi3, List.getD_cons_succ, List.getD_eq_getElem l₂ "" (by omega)]
      intro hcc
      exact h₂ (hcc ▸ List.getElem_mem _)
  · intro i _ hi
    rw [List.getD_append l₁ _ "" i (by omega), List.getD_eq_getElem l₁ "" (by omega)]
    intro hcc
    exact h₁ (hcc ▸ List.getElem_mem _)

lemma rmFromHand_single_perm (card : Card) (l₁ l₂ : List Card) (h₁ : card ∉ l₁) :
    ((l₁ ++ l₂.getLastD card :: l₂).dropLast).Perm ((l₁ ++ card :: l₂).erase card) := by
  have herase : (l₁ ++ card :: l₂).erase card = l₁ ++ l₂ := by
    rw [List.erase_append_right _ h₁, List.erase_cons_head]
  rw [herase]
  cases l₂ with
  | nil => simp
  | cons b t =>
    rw [List.dropLast_append]
    simp only [List.isEmpty_cons, Bool.false_eq_true, if_false]
    rw [List.dropLast_cons_of_ne_nil (by simp)]
    exact List.Perm.append_left l₁ (getLastD_dropLast_perm (b :: t) card (by simp))

lemma count_one_decomp (card : Card) (hand : List Card) (h : hand.count card = 1) :
    ∃ l₁ l₂, hand = l₁ ++ card :: l₂ ∧ card ∉ l₁ ∧ card ∉ l₂ := by
  have hmem : card ∈ hand := List.count_pos_iff.mp (by omega)
  obtain ⟨l₁, l₂, rfl⟩ := List.append_of_mem hmem
  rw [List.count_append, List.count_cons_self] at h
  refine ⟨l₁, l₂, rfl, ?_, ?_⟩
  · rw [← List.count_eq_zero]
    omega
  · rw [← List.count_eq_zero]
    omega

lemma rmFromHand_count_le_one (card : Card) (hand : List Card) (h : hand.count card ≤ 1) :
    ∃ result, rmFromHand card hand = some result ∧
      (card ∉ hand → result = hand) ∧
      (card ∈ hand → result.Perm (hand.erase card)) := by
  by_cases hm : card ∈ hand
  · have h1 : hand.count card = 1 := by
      have := List.count_pos_iff.mpr hm
      omega
    obtain ⟨l₁, l₂, heq, h₁, h₂⟩ := count_one_decomp card hand h1
    subst heq
    exact ⟨_, rmFromHand_single card l₁ l₂ h₁ h₂, fun hc => absurd hm hc,
      fun _ => rmFromHand_single_perm card l₁ l₂ h₁⟩
  · exact ⟨hand, rmFromHand_not_mem card hand hm, fun _ => rfl, fun hc => absurd hc hm⟩

lemma removeUsedPunchline_cons (card : Card) (p : Player) (rest : List Player) :
    removeUsedPunchline card (p :: rest) =
      match rmFromHand card p.punchlines with
      | none => none
      | some hand' =>
        match removeUsedPunchline card rest with
        | none => none
        | some rest' => some ({ p with punchlines := hand' } :: rest') := rfl

lemma removeUsedPunchline_spec (card : Card) : ∀ players : List Player,
    (∀ p ∈ players, p.punchlines.count card ≤ 1) →
    ∃ ps', removeUsedPunchline card players = some ps' ∧
      ps'.length = players.length ∧
      ∀ pr ∈ players.zip ps',
        pr.2.name = pr.1.name ∧
        (card ∉ pr.1.punchlines → pr.2 = pr.1) ∧
        (card ∈ pr.1.punchlines → pr.2.punchlines.Perm (pr.1.punchlines.erase card)) := by
  intro players
  induction players with
  | nil => intro _; exact ⟨[], rfl, rfl, by simp⟩
  | cons p rest ih =>
    intro h
    obtain ⟨hand', hh, hnm, hm⟩ := rmFromHand_count_le_one card p.punchlines (h p (by simp))
    obtain ⟨rest', hr, hlen, hzip⟩ := ih (fun q hq => h q (by simp [hq]))
    refine ⟨{ p with punchlines := hand' } :: rest', ?_, by simp [hlen], ?_⟩
    · rw [removeUsedPunchline_cons, hh, hr]
    · intro pr hpr
      rw [List.zip_cons_cons] at hpr
      rcases List.mem_cons.mp hpr with rfl | hpr'
      · refine ⟨rfl, fun hc => ?_, fun hc => hm hc⟩
        rw [hnm hc]
      · exact hzip pr hpr'

lemma removeUsedPunchline_id (card : Card) : ∀ players : List Player,
    (∀ p ∈ players, card ∉ p.punchlines) →
    removeUsedPunchline card players = some players := by
  intro players
  induction players with
  | nil => intro _; rfl
  | cons p rest ih =>
    intro h
    rw [removeUsedPunchline_cons, rmFromHand_not_mem card p.punchlines (h p (by simp)),
      ih (fun q hq => h q (by simp [hq]))]

lemma removeUsedPunchline_flatten (card : Card) : ∀ (players ps' : List Player),
    removeUsedPunchline card players = some ps' →
    ((players.map Player.punchlines).flatten.count card ≤ 1) →
    ((ps'.map Player.punchlines).flatten).Perm
      (((players.map Player.punchlines).flatten).erase card) := by
  intro players
  induction players with
  | nil =>
    intro ps' hres _
    simp only [removeUsedPunchline, Option.some.injEq] at hres
    subst hres
    simp
  | cons p rest ih =>
    intro ps' hres hcount
    rw [removeUsedPunchline_cons] at hres
    rcases hh : rmFromHand card p.punchlines with _ | hand'
    · rw [hh] at hres
      simp at hres
    · rw [hh] at hres
      simp only at hres
      rcases hr : removeUsedPunchline card rest with _ | rest'
      · rw [hr] at hres
        simp at hres
      · rw [hr] at hres
        simp only [Option.some.injEq] at hres
        subst hres
        have hcnt : p.punchlines.count card +
            ((rest.map Player.punchlines).flatten).count card ≤ 1 := by
          simpa [List.count_append] using hcount
        simp only [List.map_cons, List.flatten_cons]
        by_cases hmem : card ∈ p.punchlines
        · have hc1 : p.punchlines.count card = 1 := by
            have := List.count_pos_iff.mpr hmem
            omega
          have hrest0 : ((rest.map Player.punchlines).flatten).count card = 0 := by omega
          have hrestnm : ∀ q ∈ rest, card ∉ q.punchlines := by
            intro q hq hcq
            have hmf : card ∈ (rest.map Player.punchlines).flatten :=
              List.mem_flatten.mpr ⟨q.punchlines, List.mem_map.mpr ⟨q, hq, rfl⟩, hcq⟩
            exact absurd hmf (List.count_eq_zero.mp hrest0)
          have hrid : removeUsedPunchline card rest = some rest :=
            removeUsedPunchline_id card rest hrestnm
          rw [hrid] at hr
          have hre : rest' = rest := by
            injection hr with h0
            exact h0.symm
          subst hre
          obtain ⟨result, hh2, -, hm2⟩ :=
            rmFromHand_count_le_one card p.punchlines (by omega)
          rw [hh2] at hh
          injection hh with h0
          subst h0
          rw [List.erase_append_left _ hmem]
          exact List.Perm.append_right _ (hm2 hmem)
        · have hh2 := rmFromHand_not_mem card p.punchlines hmem
          rw [hh2] at hh
          injection hh with h0
          subst h0
          rw [List.erase_append_right _ hmem]
          exact List.Perm.append_left _ (ih rest' hr (by omega))

/-! ## Projection facts about `Play` and `Vote` -/

lemma Play_none (σ : Nat → Nat) (t : Nat) (g : Game) (n : String) (c : Card)
    (h : ¬(1 ≤ g.roundsRemaining ∧ g.roundsRemaining - 1 < g.rounds.length)) :
    Game.Play σ t g n c = none := by
  rw [Game.Play, if_neg h]

lemma Vote_none (σ : Nat → Nat) (t : Nat) (g : Game) (n : String) (c : Card)
    (h : ¬(1 ≤ g.roundsRemaining ∧ g.roundsRemaining - 1 < g.rounds.length)) :
    Game.Vote σ t g n c = none := by
  rw [Game.Vote, if_neg h]

lemma Play_eq (σ : Nat → Nat) (t : Nat) (g : Game) (n : String) (c : Card)
    (h : 1 ≤ g.roundsRemaining ∧ g.roundsRemaining - 1 < g.rounds.length)
    (players' : List Player)
    (hrm : removeUsedPunchline c (playMid g n c).players = some players') :
    Game.Play σ t g n c =
      some ((dealPunchlines σ t { playMid g n c with players := players' }).1,
        (dealPunchlines σ t { playMid g n c with players := players' }).2.1) := by
  rw [Game.Play, if_pos h, hrm]

lemma Vote_eq_full (σ : Nat → Nat) (t : Nat) (g : Game) (n : String) (c : Card)
    (h : 1 ≤ g.roundsRemaining ∧ g.roundsRemaining - 1 < g.rounds.length)
    (hf : (voteInsert g n c).votes.length = g.players.length) :
    Game.Vote σ t g n c =
      some ({ (dealPunchlines σ t (voteMid g n c)).1 with currentAction := PLAY },
        (dealPunchlines σ t (voteMid g n c)).2.1) := by
  rw [Game.Vote, if_pos h, if_pos hf]

lemma Vote_eq_incomplete (σ : Nat → Nat) (t : Nat) (g : Game) (n : String) (c : Card)
    (h : 1 ≤ g.roundsRemaining ∧ g.roundsRemaining - 1 < g.rounds.length)
    (hf : ¬(voteInsert g n c).votes.length = g.players.length) :
    Game.Vote σ t g n c = some (withRound g (voteInsert g n c), t) := by
  rw [Game.Vote, if_pos h, if_neg hf]

lemma playMid_players (g : Game) (n : String) (c : Card) : (playMid g n c).players = g.players := by
  rw [playMid]
  split <;> rfl

lemma playMid_punchlines (g : Game) (n : String) (c : Card) :
    (playMid g n c).punchlines = g.punchlines := by
  rw [playMid]
  split <;> rfl

lemma playMid_roundsRemaining (g : Game) (n : String) (c : Card) :
    (playMid g n c).roundsRemaining = g.roundsRemaining := by
  rw [playMid]
  split <;> rfl

lemma playMid_rounds (g : Game) (n : String) (c : Card) :
    (playMid g n c).rounds = g.rounds.set (g.roundsRemaining - 1) (playInsert g n c) := by
  rw [playMid]
  split <;> rfl

lemma playMid_currentAction (g : Game) (n : String) (c : Card) :
    (playMid g n c).currentAction =
      if (playInsert g n c).plays.length = g.players.length then VOTE else g.currentAction := by
  rw [playMid]
  split <;> rfl

lemma dealPunchlines_rounds (σ : Nat → Nat) (t : Nat) (G : Game) :
    (dealPunchlines σ t G).1.rounds = G.rounds := by
  obtain ⟨⟨ps₂, pool₂, t₂, e⟩, h⟩ : ∃ x, dealLoop σ t G.punchlines G.players = x := ⟨_, rfl⟩
  rw [dealPunchlines_def σ t G ps₂ pool₂ t₂ e h]

lemma dealPunchlines_currentAction (σ : Nat → Nat) (t : Nat) (G : Game) :
    (dealPunchlines σ t G).1.currentAction = G.currentAction := by
  obtain ⟨⟨ps₂, pool₂, t₂, e⟩, h⟩ : ∃ x, dealLoop σ t G.punchlines G.players = x := ⟨_, rfl⟩
  rw [dealPunchlines_def σ t G ps₂ pool₂ t₂ e h]

lemma dealPunchlines_roundsRemaining (σ : Nat → Nat) (t : Nat) (G : Game) :
    (dealPunchlines σ t G).1.roundsRemaining = G.roundsRemaining := by
  obtain ⟨⟨ps₂, pool₂, t₂, e⟩, h⟩ : ∃ x, dealLoop σ t G.punchlines G.players = x := ⟨_, rfl⟩
  rw [dealPunchlines_def σ t G ps₂ pool₂ t₂ e h]

lemma dealPunchlines_players_length (σ : Nat → Nat) (t : Nat) (G : Game) :
    (dealPunchlines σ t G).1.players.length = G.players.length := by
  obtain ⟨⟨ps₂, pool₂, t₂, e⟩, h⟩ : ∃ x, dealLoop σ t G.punchlines G.players = x := ⟨_, rfl⟩
  rw [dealPunchlines_def σ t G ps₂ pool₂ t₂ e h]
  simpa using dealLoop_length G.players σ t G.punchlines ps₂ pool₂ t₂ e h

lemma removeUsedPunchline_length (c : Card) : ∀ (players ps' : List Player),
    removeUsedPunchline c players = some ps' → ps'.length = players.length := by
  intro players
  induction players with
  | nil =>
    intro ps' hres
    simp only [removeUsedPunchline, Option.some.injEq] at hres
    subst hres
    rfl
  | cons p rest ih =>
    intro ps' hres
    rw [removeUsedPunchline_cons] at hres
    rcases hh : rmFromHand c p.punchlines with _ | hand'
    · rw [hh] at hres
      simp at hres
    · rw [hh] at hres
      simp only at hres
      rcases hr : removeUsedPunchline c rest with _ | rest'
      · rw [hr] at hres
        simp at hres
      · rw [hr] at hres
        simp only [Option.some.injEq] at hres
        subst hres
        simp [ih rest' hr]

lemma getD_set_self (l : List Round) (i : Nat) (r : Round) (h : i < l.length) :
    (l.set i r).getD i default = r := by
  rw [List.getD_eq_getElem _ _ (by simpa using h)]
  exact List.getElem_set_self _

/-! ## C10: round-index safety of `Play` and `Vote` -/

/-- C10 (amended): `1 ≤ RoundsRemaining ≤ len(Rounds)` is exactly the
condition under which the round indexing of `Play`/`Vote` is in bounds —
outside it both panic immediately (`none`) — and under it `Vote` is fully
index-safe; `Play` however has a second indexing panic inside its removal
loop, so `Play` is index-safe only with the extra proviso that no player's
hand holds the played card more than once. -/
theorem C10_round_index_safety (σ : Nat → Nat) (t : Nat) (g : Game) (n : String) (c : Card) :
    (¬(1 ≤ g.roundsRemaining ∧ g.roundsRemaining ≤ g.rounds.length) →
      Game.Play σ t g n c = none ∧ Game.Vote σ t g n c = none) ∧
    ((1 ≤ g.roundsRemaining ∧ g.roundsRemaining ≤ g.rounds.length) →
      (Game.Vote σ t g n c).isSome = true ∧
      ((∀ p ∈ g.players, p.punchlines.count c ≤ 1) →
        (Game.Play σ t g n c).isSome = true)) := by
  constructor
  · intro hno
    have hcond : ¬(1 ≤ g.roundsRemaining ∧ g.roundsRemaining - 1 < g.rounds.length) := by omega
    exact ⟨Play_none σ t g n c hcond, Vote_none σ t g n c hcond⟩
  · intro hyes
    have hcond : 1 ≤ g.roundsRemaining ∧ g.roundsRemaining - 1 < g.rounds.length := by omega
    constructor
    · by_cases hf : (voteInsert g n c).votes.length = g.players.length
      · rw [Vote_eq_full σ t g n c hcond hf]
        rfl
      · rw [Vote_eq_incomplete σ t g n c hcond hf]
        rfl
    · intro hcnt
      obtain ⟨ps', hps, -, -⟩ := removeUsedPunchline_spec c g.players hcnt
      rw [Play_eq σ t g n c hcond ps' (by rw [playMid_players]; exact hps)]
      rfl

/-- A one-round session whose player holds the same card twice. -/
def gC10 : Game :=
  { id := 0, players := [⟨"al", ["x", "x"]⟩], punchlines := [],
    rounds := [⟨("s", "u"), [], []⟩], roundsRemaining := 1, currentAction := PLAY }

/-- A one-round session with a duplicate-free hand. -/
def gC10w : Game :=
  { id := 0, players := [⟨"al", ["x"]⟩], punchlines := [],
    rounds := [⟨("s", "u"), [], []⟩], roundsRemaining := 1, currentAction := PLAY }

/-- Counterexample to C10 as stated: the round-index precondition holds, yet
`Play` still panics — inside the removal loop, because the player's hand
holds the played card twice and the second write goes past the shrunken
slice — so the precondition is not sufficient for memory-index safety. -/
theorem C10_counterexample :
    (1 ≤ gC10.roundsRemaining ∧ gC10.roundsRemaining ≤ gC10.rounds.length) ∧
    Game.Play σ0 0 gC10 "al" "x" = none := ⟨by decide, rfl⟩

/-- Witness for C10 on a concrete in-bounds session. -/
theorem C10_round_index_safety_witness :
    (1 ≤ gC10w.roundsRemaining ∧ gC10w.roundsRemaining ≤ gC10w.rounds.length) ∧
    (Game.Vote σ0 0 gC10w "al" "x").isSome = true ∧
    (Game.Play σ0 0 gC10w "al" "x").isSome = true :=
  ⟨by decide, ((C10_round_index_safety σ0 0 gC10w "al" "x").2 (by decide)).1,
    ((C10_round_index_safety σ0 0 gC10w "al" "x").2 (by decide)).2 (by decide)⟩

/-! ## C1: phase gating and the terminal state -/

/-- C1 (amended): `Play` and `Vote` are not gated by phase or by the
terminal state.  With `roundsRemaining = 0` they do fail — but by an
out-of-bounds round index (a panic, modelled `none`), not with a
`GameFinished` error value; and while the session is live a `play` call is
accepted and recorded even when the current phase is `Voting` (symmetrically
`Vote` never checks the phase either). -/
theorem C1_phase_and_terminal_gate (σ : Nat → Nat) (t : Nat) (g : Game) (n : String) (c : Card) :
    (g.roundsRemaining = 0 → Game.Play σ t g n c = none ∧ Game.Vote σ t g n c = none) ∧
    (1 ≤ g.roundsRemaining → g.roundsRemaining ≤ g.rounds.length → g.currentAction = VOTE →
      (∀ p ∈ g.players, p.punchlines.count c ≤ 1) →
      ∃ g' t', Game.Play σ t g n c = some (g', t') ∧
        (g'.rounds.getD (g.roundsRemaining - 1) default).plays =
          mapInsert n c ((g.rounds.getD (g.roundsRemaining - 1) default).plays)) := by
  constructor
  · intro h0
    have hcond : ¬(1 ≤ g.roundsRemaining ∧ g.roundsRemaining - 1 < g.rounds.length) := by omega
    exact ⟨Play_none σ t g n c hcond, Vote_none σ t g n c hcond⟩
  · intro h1 h2 _ hcnt
    have hcond : 1 ≤ g.roundsRemaining ∧ g.roundsRemaining - 1 < g.rounds.length := by omega
    obtain ⟨ps', hps, -, -⟩ := removeUsedPunchline_spec c g.players hcnt
    rw [Play_eq σ t g n c hcond ps' (by rw [playMid_players]; exact hps)]
    refine ⟨_, _, rfl, ?_⟩
    rw [dealPunchlines_rounds]
    show ((playMid g n c).rounds.getD (g.roundsRemaining - 1) default).plays = _
    rw [playMid_rounds, getD_set_self _ _ _ (by omega)]
    rfl

/-- A live session sitting in the `Voting` phase. -/
def gC1 : Game :=
  { id := 0, players := [⟨"al", []⟩], punchlines := [],
    rounds := [⟨("s", "u"), [], []⟩], roundsRemaining := 1, currentAction := VOTE }

/-- Counterexample to C1 as stated: the session is in phase `Voting`, yet
the `play` call is accepted and mutates the session (the submission lands in
the current round's plays map) instead of being rejected. -/
theorem C1_counterexample :
    gC1.currentAction = VOTE ∧
    Game.Play σ0 0 gC1 "al" "x" =
      some ({ gC1 with rounds := [⟨("s", "u"), [("al", "x")], []⟩] }, 0) := ⟨rfl, rfl⟩

/-- Witness for C1 on the same concrete voting-phase session. -/
theorem C1_phase_and_terminal_gate_witness :
    gC1.currentAction = VOTE ∧
    ∃ g' t', Game.Play σ0 0 gC1 "al" "x" = some (g', t') ∧
      (g'.rounds.getD (gC1.roundsRemaining - 1) default).plays =
        mapInsert "al" "x" ((gC1.rounds.getD (gC1.roundsRemaining - 1) default).plays) :=
  ⟨rfl, (C1_phase_and_terminal_gate σ0 0 gC1 "al" "x").2 (by decide) (by decide) rfl (by decide)⟩

/-! ## C7: the frame of `Play`'s removal step -/

/-- C7 (amended): the removal loop of `Play` scans every player — the
submitting player's name is not an input of the loop at all — removing the
played card from any hand in which it occurs; a hand that does not contain
the card is left unchanged, and a hand containing it once loses exactly that
occurrence (by the swap-remove, so up to order). -/
theorem C7_removal_frame (c : Card) (players : List Player)
    (h : ∀ p ∈ players, p.punchlines.count c ≤ 1) :
    ∃ ps', removeUsedPunchline c players = some ps' ∧
      ps'.length = players.length ∧
      ∀ pr ∈ players.zip ps',
        pr.2.name = pr.1.name ∧
        (c ∉ pr.1.punchlines → pr.2 = pr.1) ∧
        (c ∈ pr.1.punchlines → pr.2.punchlines.Perm (pr.1.punchlines.erase c)) :=
  removeUsedPunchline_spec c players h

/-- A session in which two players hold the same card. -/
def gC7 : Game :=
  { id := 0, players := [⟨"al", ["x", "a"]⟩, ⟨"bob", ["x", "b"]⟩], punchlines := [],
    rounds := [⟨("s", "u"), [], []⟩], roundsRemaining := 1, currentAction := PLAY }

/-- Counterexample to C7 as stated: when `al` plays `x`, the removal step
also strips `x` out of `bob`'s hand — the loop is not restricted to the
submitting player. -/
theorem C7_counterexample :
    Game.Play σ0 0 gC7 "al" "x" =
      some ({ gC7 with
                players := [⟨"al", ["a"]⟩, ⟨"bob", ["b"]⟩],
                rounds := [⟨("s", "u"), [("al", "x")], []⟩] }, 0) ∧
    (⟨"bob", ["b"]⟩ : Player) ≠ ⟨"bob", ["x", "b"]⟩ := ⟨rfl, by decide⟩

/-- Witness for C7 on the two-player session above. -/
theorem C7_removal_frame_witness :
    (∀ p ∈ gC7.players, p.punchlines.count "x" ≤ 1) ∧
    ∃ ps', removeUsedPunchline "x" gC7.players = some ps' ∧
      ps'.length = gC7.players.length ∧
      ∀ pr ∈ gC7.players.zip ps',
        pr.2.name = pr.1.name ∧
        ("x" ∉ pr.1.punchlines → pr.2 = pr.1) ∧
        ("x" ∈ pr.1.punchlines → pr.2.punchlines.Perm (pr.1.punchlines.erase "x")) :=
  ⟨by decide, C7_removal_frame "x" gC7.players (by decide)⟩

/-! ## C2: the play/vote phase cycle -/

/-- C2: starting from phase `Playing`, a successful `play` leaves the phase
at `Playing` while the current round's plays map stays below the player
count, and flips it to `Voting` with the call that makes the map reach the
player count; symmetrically the `vote` that fills the votes map decrements
`roundsRemaining`, runs the refill (every hand is at `handSize` afterwards
whenever the pool can cover the deficits) and sets the phase back to
`Playing`, while an incomplete vote changes nothing but the current round. -/
theorem C2_phase_cycle (σ : Nat → Nat) (t : Nat) (g : Game) (n : String) (c : Card) :
    (∀ g' t', g.currentAction = PLAY → Game.Play σ t g n c = some (g', t') →
      g'.players.length = g.players.length ∧
      ((g'.rounds.getD (g.roundsRemaining - 1) default).plays.length < g.players.length →
        g'.currentAction = PLAY) ∧
      ((g'.rounds.getD (g.roundsRemaining - 1) default).plays.length = g.players.length →
        g'.currentAction = VOTE)) ∧
    (∀ g' t', Game.Vote σ t g n c = some (g', t') →
      ((g'.rounds.getD (g.roundsRemaining - 1) default).votes.length = g.players.length →
        g'.roundsRemaining = g.roundsRemaining - 1 ∧ g'.currentAction = PLAY ∧
        ((∀ p ∈ g.players, p.punchlines.length ≤ handSize) →
          deficitSum g.players ≤ g.punchlines.length →
          ∀ p' ∈ g'.players, p'.punchlines.length = handSize)) ∧
      ((g'.rounds.getD (g.roundsRemaining - 1) default).votes.length < g.players.length →
        g'.roundsRemaining = g.roundsRemaining ∧ g'.currentAction = g.currentAction ∧
        g'.players = g.players ∧ g'.punchlines = g.punchlines)) := by
  constructor
  · intro g' t' hact hres
    by_cases hcond : 1 ≤ g.roundsRemaining ∧ g.roundsRemaining - 1 < g.rounds.length
    · rcases hrm : removeUsedPunchline c (playMid g n c).players with _ | ps'
      · rw [Game.Play, if_pos hcond, hrm] at hres
        simp at hres
      · rw [Play_eq σ t g n c hcond ps' hrm] at hres
        simp only [Option.some.injEq, Prod.mk.injEq] at hres
        obtain ⟨hg, -⟩ := hres
        subst hg
        have hgetD : (dealPunchlines σ t { playMid g n c with players := ps' }).1.rounds.getD
            (g.roundsRemaining - 1) default = playInsert g n c := by
          rw [dealPunchlines_rounds]
          show ((playMid g n c).rounds).getD _ _ = _
          rw [playMid_rounds]
          exact getD_set_self _ _ _ (by omega)
        have hlen : (dealPunchlines σ t { playMid g n c with players := ps' }).1.players.length =
            g.players.length := by
          rw [dealPunchlines_players_length]
          show ps'.length = _
          rw [removeUsedPunchline_length c _ ps' hrm, playMid_players]
        have hact' : (dealPunchlines σ t { playMid g n c with players := ps' }).1.currentAction =
            (playMid g n c).currentAction := by
          rw [dealPunchlines_currentAction]
        refine ⟨hlen, ?_, ?_⟩
        · intro hlt
          rw [hgetD] at hlt
          rw [hact', playMid_currentAction, if_neg (by omega), hact]
        · intro heq
          rw [hgetD] at heq
          rw [hact', playMid_currentAction, if_pos heq]
    · rw [Play_none σ t g n c hcond] at hres
      simp at hres
  · intro g' t' hres
    by_cases hcond : 1 ≤ g.roundsRemaining ∧ g.roundsRemaining - 1 < g.rounds.length
    · by_cases hf : (voteInsert g n c).votes.length = g.players.length
      · rw [Vote_eq_full σ t g n c hcond hf] at hres
        simp only [Option.some.injEq, Prod.mk.injEq] at hres
        obtain ⟨hg, -⟩ := hres
        subst hg
        have hgetD : ({ (dealPunchlines σ t (voteMid g n c)).1 with
              currentAction := PLAY }).rounds.getD (g.roundsRemaining - 1) default =
            voteInsert g n c := by
          show (dealPunchlines σ t (voteMid g n c)).1.rounds.getD _ _ = _
          rw [dealPunchlines_rounds]
          show (g.rounds.set (g.roundsRemaining - 1) (voteInsert g n c)).getD _ _ = _
          exact getD_set_self _ _ _ (by omega)
        constructor
        · intro _
          refine ⟨?_, rfl, ?_⟩
          · show (dealPunchlines σ t (voteMid g n c)).1.roundsRemaining = _
            rw [dealPunchlines_roundsRemaining]
            rfl
          · intro hb hd
            obtain ⟨⟨ps₂, pool₂, t₂, e⟩, h⟩ : ∃ x, dealLoop σ t g.punchlines g.players = x :=
              ⟨_, rfl⟩
            have hdd : dealPunchlines σ t (voteMid g n c) =
                ({ voteMid g n c with players := ps₂, punchlines := pool₂ }, t₂, e) :=
              dealPunchlines_def σ t _ ps₂ pool₂ t₂ e h
            obtain ⟨-, hall, -⟩ :=
              dealLoop_none g.players σ t g.punchlines ps₂ pool₂ t₂ e h hb hd
            intro p' hp'
            have hpl : ({ (dealPunchlines σ t (voteMid g n c)).1 with
                currentAction := PLAY }).players = ps₂ := by
              rw [hdd]
            rw [hpl] at hp'
            exact hall p' hp'
        · intro hlt
          rw [hgetD, hf] at hlt
          exact absurd hlt (by omega)
      · rw [Vote_eq_incomplete σ t g n c hcond hf] at hres
        simp only [Option.some.injEq, Prod.mk.injEq] at hres
        obtain ⟨hg, -⟩ := hres
        subst hg
        have hgetD : (withRound g (voteInsert g n c)).rounds.getD
            (g.roundsRemaining - 1) default = voteInsert g n c := by
          show (g.rounds.set (g.roundsRemaining - 1) (voteInsert g n c)).getD _ _ = _
          exact getD_set_self _ _ _ (by omega)
        constructor
        · intro heq
          rw [hgetD] at heq
          exact absurd heq hf
        · intro _
          exact ⟨rfl, rfl, rfl, rfl⟩
    · rw [Vote_none σ t g n c hcond] at hres
      simp at hres

/-- A two-player session in which `al` has already played. -/
def gC2 : Game :=
  { id := 0, players := [⟨"al", []⟩, ⟨"bob", []⟩], punchlines := [],
    rounds := [⟨("s", "u"), [("al", "p")], []⟩], roundsRemaining := 1, currentAction := PLAY }

/-- The state after `bob`'s play completes the round. -/
def gC2x : Game :=
  { gC2 with rounds := [⟨("s", "u"), [("al", "p"), ("bob", "q")], []⟩], currentAction := VOTE }

/-- Witness for C2: the second distinct player's play flips the phase. -/
theorem C2_phase_cycle_witness :
    gC2.currentAction = PLAY ∧
    Game.Play σ0 0 gC2 "bob" "q" = some (gC2x, 0) ∧
    gC2x.currentAction = VOTE :=
  ⟨rfl, rfl, ((C2_phase_cycle σ0 0 gC2 "bob" "q").1 gC2x 0 rfl rfl).2.2 (by decide)⟩

/-! ## C3: the conservation law -/

/-- C3 (amended): over a duplicate-free union of hands and pool,
duplicate-freeness is preserved by refill, vote and play, and the total
size of the union is invariant under refill and vote calls; a play call,
however, consumes the played card — when the card sits in some hand the
union shrinks by exactly one (the card moves into the round's plays map and
never returns to hands or pool), and only a play of a card held by nobody
leaves the union unchanged. -/
theorem C3_conservation (σ : Nat → Nat) (t : Nat) (g : Game) (n : String) (c : Card)
    (hnd : (allCards g).Nodup) :
    ((allCards (dealPunchlines σ t g).1).Perm (allCards g)) ∧
    (∀ g' t', Game.Vote σ t g n c = some (g', t') → (allCards g').Perm (allCards g)) ∧
    (∀ g'' t'', Game.Play σ t g n c = some (g'', t'') →
      (allCards g'').Nodup ∧
      (c ∈ handsCards g → (allCards g'').length + 1 = (allCards g).length) ∧
      (c ∉ handsCards g → (allCards g'').Perm (allCards g))) := by
  refine ⟨dealPunchlines_allCards σ t g, ?_, ?_⟩
  · intro g' t' hres
    by_cases hcond : 1 ≤ g.roundsRemaining ∧ g.roundsRemaining - 1 < g.rounds.length
    · by_cases hf : (voteInsert g n c).votes.length = g.players.length
      · rw [Vote_eq_full σ t g n c hcond hf] at hres
        simp only [Option.some.injEq, Prod.mk.injEq] at hres
        obtain ⟨hg, -⟩ := hres
        subst hg
        have h1 : allCards { (dealPunchlines σ t (voteMid g n c)).1 with
            currentAction := PLAY } = allCards (dealPunchlines σ t (voteMid g n c)).1 := rfl
        have h2 := dealPunchlines_allCards σ t (voteMid g n c)
        have h3 : allCards (voteMid g n c) = allCards g := rfl
        rw [h1]
        rw [h3] at h2
        exact h2
      · rw [Vote_eq_incomplete σ t g n c hcond hf] at hres
        simp only [Option.some.injEq, Prod.mk.injEq] at hres
        obtain ⟨hg, -⟩ := hres
        subst hg
        have h1 : allCards (withRound g (voteInsert g n c)) = allCards g := rfl
        rw [h1]
    · rw [Vote_none σ t g n c hcond] at hres
      simp at hres
  · intro g'' t'' hres
    by_cases hcond : 1 ≤ g.roundsRemaining ∧ g.roundsRemaining - 1 < g.rounds.length
    · rcases hrm : removeUsedPunchline c (playMid g n c).players with _ | ps'
      · rw [Game.Play, if_pos hcond, hrm] at hres
        simp at hres
      · rw [Play_eq σ t g n c hcond ps' hrm] at hres
        simp only [Option.some.injEq, Prod.mk.injEq] at hres
        obtain ⟨hg, -⟩ := hres
        rw [playMid_players] at hrm
        have hhnd : (handsCards g).Nodup := List.Nodup.of_append_left hnd
        have hcnt : (handsCards g).count c ≤ 1 := List.nodup_iff_count_le_one.mp hhnd c
        have hflat := removeUsedPunchline_flatten c g.players ps' hrm hcnt
        have hA : (allCards (dealPunchlines σ t { playMid g n c with players := ps' }).1).Perm
            (allCards { playMid g n c with players := ps' }) := dealPunchlines_allCards σ t _
        have hB : allCards { playMid g n c with players := ps' } =
            (ps'.map Player.punchlines).flatten ++ (playMid g n c).punchlines := rfl
        rw [playMid_punchlines] at hB
        have hC : ((ps'.map Player.punchlines).flatten ++ g.punchlines).Perm
            ((handsCards g).erase c ++ g.punchlines) := List.Perm.append_right _ hflat
        have hperm : (allCards g'').Perm ((handsCards g).erase c ++ g.punchlines) := by
          rw [← hg]
          exact (hB ▸ hA).trans hC
        have hsub : ((handsCards g).erase c ++ g.punchlines).Sublist (allCards g) :=
          (List.erase_sublist c (handsCards g)).append_right g.punchlines
        have hXnd : ((handsCards g).erase c ++ g.punchlines).Nodup :=
          List.Nodup.sublist hsub hnd
        refine ⟨hperm.nodup_iff.mpr hXnd, ?_, ?_⟩
        · intro hmem
          have hlen := hperm.length_eq
          rw [List.length_append, List.length_erase_of_mem hmem] at hlen
          have hge : 0 < (handsCards g).length := List.length_pos_of_mem hmem
          have htot : (allCards g).length = (handsCards g).length + g.punchlines.length := by
            show (handsCards g ++ g.punchlines).length = _
            rw [List.length_append]
          omega
        · intro hnmem
          rw [List.erase_of_not_mem hnmem] at hperm
          exact hperm
    · rw [Play_none σ t g n c hcond] at hres
      simp at hres

/-- One player holding a full duplicate-free hand including `x`, pool of one
card. -/
def gC3 : Game :=
  { id := 0, players := [⟨"al", ["x", "a", "b", "c", "d", "e"]⟩], punchlines := ["p"],
    rounds := [⟨("s", "u"), [], []⟩], roundsRemaining := 1, currentAction := PLAY }

/-- The state after `al` plays `x` (swap-remove reorders the hand, the
refill moves `p` from the pool into it). -/
def gC3x : Game :=
  { gC3 with
      players := [⟨"al", ["e", "a", "b", "c", "d", "p"]⟩],
      punchlines := [],
      rounds := [⟨("s", "u"), [("al", "x")], []⟩],
      currentAction := VOTE }

/-- Counterexample to C3 as stated: a play call shrinks the union of hands
and pool from 7 cards to 6 — the played card leaves the union — so the
total size is not invariant under play calls. -/
theorem C3_counterexample :
    (allCards gC3).Nodup ∧
    Game.Play σ0 0 gC3 "al" "x" = some (gC3x, 1) ∧
    (allCards gC3x).length + 1 = (allCards gC3).length ∧
    (allCards gC3).length = 7 := ⟨by decide, rfl, by decide, by decide⟩

/-- Witness for C3: refill conservation on the concrete session above. -/
theorem C3_conservation_witness :
    (allCards gC3).Nodup ∧
    (allCards (dealPunchlines σ0 0 gC3).1).Perm (allCards gC3) :=
  ⟨by decide, (C3_conservation σ0 0 gC3 "al" "x" (by decide)).1⟩
